import Mathlib

/-!
Shallow embedding of the schema-driven merge and collection-reconciliation
engine of the terraform-provider-openapi repository (file openapi/common.go),
together with theorems settling the frozen specification claims.

Modelling conventions:

- Go untyped values (interface braces elided) are modelled by the inductive
  type Value below, with a constructor for the Go nil interface (null), for
  each scalar shape, for maps (obj, an association list with the unique-key
  discipline of Go maps), for slices (arr), for the SDK type schema.Set
  (set, carrying its element enumeration), and for a Go error value stored
  inside an interface slot (goErr), which the code under verification does
  produce as a data value.
- Go float64 payload numbers are modelled as rationals; the only operation
  the verified code performs on them is truncation toward zero, which the
  rationals model exactly.
- Functions returning a Go pair of value and error are modelled with result
  type Except String (Value × Option String): the outer Except.error models
  a Go runtime panic (failed type assertion), the inner pair is the ordinary
  (value, error) return.
- The external library function hashcode.String (a stable general purpose
  string hash; the specification states that the exact hash family is not a
  compatibility requirement, only determinism) is modelled by the
  deterministic string hash polyNat. The SDK set type dedupes its members by
  the hash code of the configured hash function; setAdd models the SDK
  first-writer-wins insertion keyed by hashComplexObject, comparing the hash
  codes directly, which is equivalent to comparing their decimal renderings.
- Error message strings follow the source but drop the single-quote marks
  around interpolated names.
-/

/-- Untyped Go value trees exchanged at the boundary. -/
inductive Value where
  | null
  | str (s : String)
  | int (n : Int)
  | float (q : Rat)
  | bool (b : Bool)
  | obj (fields : List (String × Value))
  | arr (elems : List Value)
  | set (elems : List Value)
  | goErr (msg : String)
  deriving Repr

mutual

/-- Structural equality of Value trees (models Go deep equality on the shapes
the engine handles). -/
def Value.beq : Value → Value → Bool
  | .null, .null => true
  | .str a, .str b => a == b
  | .int a, .int b => a == b
  | .float a, .float b => a == b
  | .bool a, .bool b => a == b
  | .obj a, .obj b => Value.beqFields a b
  | .arr a, .arr b => Value.beqList a b
  | .set a, .set b => Value.beqList a b
  | .goErr a, .goErr b => a == b
  | _, _ => false

def Value.beqFields : List (String × Value) → List (String × Value) → Bool
  | [], [] => true
  | (k1, v1) :: r1, (k2, v2) :: r2 => k1 == k2 && Value.beq v1 v2 && Value.beqFields r1 r2
  | _, _ => false

def Value.beqList : List Value → List Value → Bool
  | [], [] => true
  | a :: r1, b :: r2 => Value.beq a b && Value.beqList r1 r2
  | _, _ => false

end

mutual

theorem Value.eq_of_beq : ∀ {a b : Value}, Value.beq a b = true → a = b
  | .null, .null, _ => rfl
  | .str a, .str b, h => by simp [Value.beq] at h; simp [h]
  | .int a, .int b, h => by simp [Value.beq] at h; simp [h]
  | .float a, .float b, h => by simp [Value.beq] at h; simp [h]
  | .bool a, .bool b, h => by simp [Value.beq] at h; simp [h]
  | .obj a, .obj b, h => by
      simp only [Value.beq] at h
      exact congrArg Value.obj (Value.eqFields_of_beqFields h)
  | .arr a, .arr b, h => by
      simp only [Value.beq] at h
      exact congrArg Value.arr (Value.eqList_of_beqList h)
  | .set a, .set b, h => by
      simp only [Value.beq] at h
      exact congrArg Value.set (Value.eqList_of_beqList h)
  | .goErr a, .goErr b, h => by simp [Value.beq] at h; simp [h]

theorem Value.eqFields_of_beqFields :
    ∀ {a b : List (String × Value)}, Value.beqFields a b = true → a = b
  | [], [], _ => rfl
  | (k1, v1) :: r1, (k2, v2) :: r2, h => by
      simp only [Value.beqFields, Bool.and_eq_true, beq_iff_eq] at h
      obtain ⟨⟨hk, hv⟩, hr⟩ := h
      rw [hk, Value.eq_of_beq hv, Value.eqFields_of_beqFields hr]

theorem Value.eqList_of_beqList : ∀ {a b : List Value}, Value.beqList a b = true → a = b
  | [], [], _ => rfl
  | a :: r1, b :: r2, h => by
      simp only [Value.beqList, Bool.and_eq_true] at h
      rw [Value.eq_of_beq h.1, Value.eqList_of_beqList h.2]

end

mutual

theorem Value.beq_refl : ∀ (a : Value), Value.beq a a = true
  | .null => rfl
  | .str a => by simp [Value.beq]
  | .int a => by simp [Value.beq]
  | .float a => by simp [Value.beq]
  | .bool a => by simp [Value.beq]
  | .obj a => by simp only [Value.beq]; exact Value.beqFields_refl a
  | .arr a => by simp only [Value.beq]; exact Value.beqList_refl a
  | .set a => by simp only [Value.beq]; exact Value.beqList_refl a
  | .goErr a => by simp [Value.beq]

theorem Value.beqFields_refl : ∀ (a : List (String × Value)), Value.beqFields a a = true
  | [] => rfl
  | (k, v) :: r => by
      simp only [Value.beqFields, Bool.and_eq_true, beq_iff_eq]
      exact ⟨⟨trivial, Value.beq_refl v⟩, Value.beqFields_refl r⟩

theorem Value.beqList_refl : ∀ (a : List Value), Value.beqList a a = true
  | [] => rfl
  | a :: r => by
      simp only [Value.beqList, Bool.and_eq_true]
      exact ⟨Value.beq_refl a, Value.beqList_refl r⟩

end

instance : DecidableEq Value := fun a b =>
  if h : Value.beq a b = true then .isTrue (Value.eq_of_beq h)
  else .isFalse (fun he => h (he ▸ Value.beq_refl a))

/-- Go map read m[k]: the zero interface value (null) when the key is absent. -/
def lookupValue (m : List (String × Value)) (k : String) : Value :=
  match m.find? (fun kv => kv.1 == k) with
  | some kv => kv.2
  | none => .null

/-- Go map write m[k] = v: replaces the binding when the key is present,
otherwise appends it. -/
def assocSet (m : List (String × Value)) (k : String) (v : Value) : List (String × Value) :=
  match m with
  | [] => [(k, v)]
  | (k1, v1) :: rest => if k1 == k then (k, v) :: rest else (k1, v1) :: assocSet rest k v

/-! ### The canonical hasher (hashComplexObject, openapi/common.go lines 214 to 243)

The Go function renders a value tree to a canonical string buffer (sorting
map keys so the render is independent of map iteration order) and hashes the
buffer with the external hashcode.String. The external string hash is
modelled by polyNat; the buffer construction is from the source. The source
sorts the key strings and then hashes each value in sorted-key order; since
hashing one value does not depend on its position, this equals hashing each
value first and then ordering the key-and-hash pairs by key, which is the
form used here so that the recursion is structural. -/

/-- Modelled from the spec: the external library hash hashcode.String, a
stable general purpose string hash returning a nonnegative code. The exact
hash family is explicitly not a compatibility requirement, only determinism. -/
def polyNat (s : String) : Nat :=
  s.data.foldl (fun h c => h * 31 + c.toNat) 0

/-- The Go verb percent-v rendering for the scalar shapes that reach the
default branch of hashComplexObject. -/
def goRender : Value → String
  | .null => "<nil>"
  | .str s => s
  | .int n => toString n
  | .float q => toString q
  | .bool b => if b then "true" else "false"
  | .obj _ => "map"
  | .arr _ => "slice"
  | .set _ => "set"
  | .goErr m => m

/-- Byte-order comparison of character lists, the order used by the Go
sort.Strings call on map keys. -/
def charListLE : List Char → List Char → Bool
  | [], _ => true
  | _ :: _, [] => false
  | a :: as, b :: bs =>
      if a.toNat < b.toNat then true
      else if b.toNat < a.toNat then false
      else charListLE as bs

def strLE (a b : String) : Bool := charListLE a.data b.data

/-- Order on key-and-hash pairs induced by the key order of sort.Strings. -/
def keyLE (a b : String × Nat) : Prop := strLE a.1 b.1 = true

instance : DecidableRel keyLE := fun _ _ => inferInstanceAs (Decidable (_ = true))

/-- The sorted-key concatenation buffer for a mapping: for each key in sorted
order, the key string followed by the decimal rendering of the hash of its
value. -/
def objBuffer (kvs : List (String × Nat)) : String :=
  String.join ((List.insertionSort keyLE kvs).map (fun kv => kv.1 ++ toString kv.2))

mutual

/-- hashComplexObject, openapi/common.go lines 214 to 243. -/
def hashComplexObject : Value → Nat
  | .obj fields => polyNat (objBuffer (hashFields fields))
  | .arr elems => polyNat (String.join (hashElems elems))
  | v => polyNat (goRender v)

def hashFields : List (String × Value) → List (String × Nat)
  | [] => []
  | (k, v) :: rest => (k, hashComplexObject v) :: hashFields rest

def hashElems : List Value → List String
  | [] => []
  | v :: rest => toString (hashComplexObject v) :: hashElems rest

end

/-- SDK schema.Set insertion keyed by hashComplexObject: the element is added
only when no present element has the same hash code (first writer wins). -/
def setAdd (elems : List Value) (v : Value) : List Value :=
  if elems.any (fun w => hashComplexObject w == hashComplexObject v) then elems
  else elems ++ [v]

/-! ### Order lemmas for the key order used by the hasher -/

theorem charListLE_total : ∀ (a b : List Char), charListLE a b = true ∨ charListLE b a = true
  | [], _ => Or.inl rfl
  | _ :: _, [] => Or.inr rfl
  | a :: as, b :: bs => by
      by_cases hab : a.toNat < b.toNat
      · exact Or.inl (by simp [charListLE, hab])
      · by_cases hba : b.toNat < a.toNat
        · exact Or.inr (by simp [charListLE, hba, hab])
        · rcases charListLE_total as bs with h | h
          · exact Or.inl (by simp [charListLE, hab, hba, h])
          · exact Or.inr (by simp [charListLE, hab, hba, h])

theorem charListLE_trans :
    ∀ {a b c : List Char}, charListLE a b = true → charListLE b c = true → charListLE a c = true
  | [], _, _, _, _ => rfl
  | a :: as, [], c, hab, _ => by simp [charListLE] at hab
  | a :: as, b :: bs, [], _, hbc => by simp [charListLE] at hbc
  | a :: as, b :: bs, c :: cs, hab, hbc => by
      simp only [charListLE] at hab hbc ⊢
      split at hab
      · rename_i h1
        split at hbc
        · rename_i h2
          simp [show a.toNat < c.toNat by omega]
        · split at hbc
          · simp at hbc
          · rename_i h2 h3
            simp [show a.toNat < c.toNat by omega]
      · split at hab
        · simp at hab
        · rename_i h1 h2
          split at hbc
          · rename_i h3
            simp [show a.toNat < c.toNat by omega]
          · split at hbc
            · simp at hbc
            · rename_i h3 h4
              have heq : a.toNat = c.toNat := by omega
              simp only [if_neg (by omega : ¬ a.toNat < c.toNat),
                if_neg (by omega : ¬ c.toNat < a.toNat)]
              exact charListLE_trans hab hbc

theorem charEq_of_toNat_eq {a b : Char} (h : a.toNat = b.toNat) : a = b :=
  Char.eq_of_val_eq (UInt32.eq_of_toBitVec_eq (by
    have h2 : a.val.toBitVec.toNat = b.val.toBitVec.toNat := h
    exact BitVec.eq_of_toNat_eq h2))

theorem charListLE_antisymm :
    ∀ {a b : List Char}, charListLE a b = true → charListLE b a = true → a = b
  | [], [], _, _ => rfl
  | [], _ :: _, _, hba => by simp [charListLE] at hba
  | _ :: _, [], hab, _ => by simp [charListLE] at hab
  | a :: as, b :: bs, hab, hba => by
      simp only [charListLE] at hab hba
      split at hab
      · rename_i h1
        rw [if_neg (by omega), if_pos h1] at hba
        simp at hba
      · split at hab
        · simp at hab
        · rename_i h1 h2
          have heqn : a.toNat = b.toNat := by omega
          rw [if_neg (by omega), if_neg (by omega)] at hba
          rw [charEq_of_toNat_eq heqn, charListLE_antisymm hab hba]

theorem strLE_total (a b : String) : strLE a b = true ∨ strLE b a = true :=
  charListLE_total a.data b.data

theorem strLE_trans {a b c : String} (h1 : strLE a b = true) (h2 : strLE b c = true) :
    strLE a c = true :=
  charListLE_trans h1 h2

theorem strLE_antisymm {a b : String} (h1 : strLE a b = true) (h2 : strLE b a = true) : a = b := by
  cases a; cases b
  exact congrArg String.mk (charListLE_antisymm h1 h2)

instance : IsTotal (String × Nat) keyLE := ⟨fun a b => strLE_total a.1 b.1⟩

instance : IsTrans (String × Nat) keyLE := ⟨fun _ _ _ => strLE_trans⟩

/-! ### Schema model

The property/schema declarations live outside the verified source file (they
are consumed through the SpecSchemaDefinitionProperty interface); the
structure and the predicate helpers below are modelled from the spec data
model (section 3) and the coercion rules (section 4.2). -/

/-- The closed set of property kinds named by the coercion switch. -/
inductive PropType where
  | string
  | int
  | float
  | bool
  | list
  | object
  | set
  deriving DecidableEq, Repr

/-- Modelled from the spec: a named schema node with its kind, the kind of
collection elements, the write-only and ignore-order flags, the wrapper
policy flag for the single-element list encoding of nested objects, and the
nested schema (children). -/
inductive SpecProp where
  | mk (name : String) (type_ : PropType) (arrayItemsType : PropType)
       (writeOnly : Bool) (ignoreItemsOrder : Bool) (enableLegacyBlock : Bool)
       (children : List SpecProp)

def SpecProp.name : SpecProp → String
  | .mk n _ _ _ _ _ _ => n

def SpecProp.type_ : SpecProp → PropType
  | .mk _ t _ _ _ _ _ => t

def SpecProp.arrayItemsType : SpecProp → PropType
  | .mk _ _ a _ _ _ _ => a

def SpecProp.writeOnly : SpecProp → Bool
  | .mk _ _ _ w _ _ _ => w

def SpecProp.ignoreItemsOrder : SpecProp → Bool
  | .mk _ _ _ _ i _ _ => i

def SpecProp.enableLegacyBlock : SpecProp → Bool
  | .mk _ _ _ _ _ l _ => l

def SpecProp.children : SpecProp → List SpecProp
  | .mk _ _ _ _ _ _ c => c

theorem SpecProp.sizeOf_children_lt (p : SpecProp) : sizeOf p.children < sizeOf p := by
  cases p with
  | mk n t a w i l c => simp [SpecProp.children]

/-- Modelled from the spec: a List property whose element type is one of the
four primitive kinds (section 4.2, List rule). -/
def isTerraformListOfSimpleValues (p : SpecProp) : Bool :=
  p.type_ == PropType.list &&
    (p.arrayItemsType == PropType.string || p.arrayItemsType == PropType.int ||
     p.arrayItemsType == PropType.float || p.arrayItemsType == PropType.bool)

/-- Modelled from the spec: a List property with object elements. -/
def isArrayOfObjectsProperty (p : SpecProp) : Bool :=
  p.type_ == PropType.list && p.arrayItemsType == PropType.object

/-- Modelled from the spec: a Set property whose element type is primitive. -/
def isTerraformSetOfSimpleValues (p : SpecProp) : Bool :=
  p.type_ == PropType.set &&
    (p.arrayItemsType == PropType.string || p.arrayItemsType == PropType.int ||
     p.arrayItemsType == PropType.float || p.arrayItemsType == PropType.bool)

/-- Modelled from the spec: a Set property with object elements. -/
def isSetOfObjectsProperty (p : SpecProp) : Bool :=
  p.type_ == PropType.set && p.arrayItemsType == PropType.object

/-- Modelled from the spec: a Set property. -/
def isSetProperty (p : SpecProp) : Bool :=
  p.type_ == PropType.set

/-- Modelled from the spec: the reorder policy applies only to List
properties flagged ignore-order (section 4.6). -/
def shouldIgnoreOrder (p : SpecProp) : Bool :=
  p.type_ == PropType.list && p.ignoreItemsOrder

/-- Modelled from the spec: the wrapper policy flag, evaluated once per
object property (section 3, wrapper-list encoding). -/
def shouldUseLegacyTerraformSDKBlockApproachForComplexObjects (p : SpecProp) : Bool :=
  p.enableLegacyBlock

/-- Modelled from the spec: the schema-declared compliant name of a property.
The spec does not fix the conversion, and no claim depends on it, so the
model keeps the declared name. -/
def getTerraformCompliantPropertyName (p : SpecProp) : String :=
  p.name

/-- Modelled from the spec: deep element equality, full recursive value
equality, used by the reorder policy (section 4.6). The items-type argument
mirrors the Go signature. -/
def equalItems (_itemsType : PropType) (item1 item2 : Value) : Bool :=
  item1 = item2

/-! ### The order-preserving reorder policy
(processIgnoreOrderIfEnabled, openapi/common.go lines 164 to 199) -/

/-- The message attached to a Go runtime panic from a failed type assertion. -/
def interfaceConversionPanicMsg : String := "panic: interface conversion"

/-- The inner scan of the first loop: the first remote element deep-equal to
the given input element (the Go loop breaks at the first match). -/
def findEqualRemoteLoop (itemsType : PropType) (inputItemValue : Value) :
    List Value → Option Value
  | [] => none
  | remoteItemValue :: rest =>
      if equalItems itemsType inputItemValue remoteItemValue then some remoteItemValue
      else findEqualRemoteLoop itemsType inputItemValue rest

/-- The first loop: for each input element in input order, append the first
deep-equal remote element when one exists. -/
def matchedInputItemsLoop (itemsType : PropType) (remoteValueArray : List Value) :
    List Value → List Value
  | [] => []
  | inputItemValue :: rest =>
      match findEqualRemoteLoop itemsType inputItemValue remoteValueArray with
      | some remoteItemValue =>
          remoteItemValue :: matchedInputItemsLoop itemsType remoteValueArray rest
      | none => matchedInputItemsLoop itemsType remoteValueArray rest

/-- The inner scan of the second loop: whether some input element is
deep-equal to the given remote element. -/
def anyEqualInputLoop (itemsType : PropType) (remoteItemValue : Value) :
    List Value → Bool
  | [] => false
  | inputItemValue :: rest =>
      if equalItems itemsType inputItemValue remoteItemValue then true
      else anyEqualInputLoop itemsType remoteItemValue rest

/-- The second loop: remote elements with no deep-equal input counterpart, in
remote order. -/
def modifiedItemsLoop (itemsType : PropType) (inputValueArray : List Value) :
    List Value → List Value
  | [] => []
  | remoteItemValue :: rest =>
      if anyEqualInputLoop itemsType remoteItemValue inputValueArray then
        modifiedItemsLoop itemsType inputValueArray rest
      else remoteItemValue :: modifiedItemsLoop itemsType inputValueArray rest

/-- processIgnoreOrderIfEnabled, openapi/common.go lines 164 to 199. The Go
function returns remoteValue whenever either input is nil; otherwise, for an
ignore-order property, it asserts both inputs to arrays (a runtime panic when
the assertion fails) and builds the matched-then-modified concatenation. -/
def processIgnoreOrderIfEnabled (property : SpecProp)
    (inputPropertyValue remoteValue : Value) : Except String Value :=
  if inputPropertyValue = Value.null ∨ remoteValue = Value.null then .ok remoteValue
  else if shouldIgnoreOrder property then
    match inputPropertyValue, remoteValue with
    | .arr inputValueArray, .arr remoteValueArray =>
        .ok (.arr (matchedInputItemsLoop property.arrayItemsType remoteValueArray inputValueArray
          ++ modifiedItemsLoop property.arrayItemsType inputValueArray remoteValueArray))
    | _, _ => .error interfaceConversionPanicMsg
  else .ok remoteValue

/-! ### The value coercer, object merger, and collection reconcilers
(convertPayloadToLocalStateDataValue and convertObjectToLocalStateData,
openapi/common.go lines 376 to 555, together with deepConvertArrayToSet and
deepConvertArrayToSetMapNew, lines 277 to 374)

Each case of the Go type switch is a separate definition here, named after
its kind, and the Go loops are explicit recursions; the dispatching function
keeps the source name. The source returns the pair (err, nil) at the four
nested-merge failure sites inside convertPayloadToLocalStateDataValue (lines
413, 447, 463 and 475), placing the Go error value in the value slot of the
pair; this is modelled verbatim with Value.goErr. The default branch of the
type switch (line 509) is unreachable in the model because PropType
enumerates exactly the kinds the switch names. -/

/-- Go conversion int(f) for a float64: truncation toward zero. -/
def ratTrunc (q : Rat) : Int :=
  if 0 ≤ q then q.floor else -((-q).floor)

/-- The TypeString case, lines 485 to 489: null propagates, a string passes
through, any other shape fails the string type assertion. -/
def convertStringPayload (propertyValue : Value) : Except String (Value × Option String) :=
  match propertyValue with
  | .null => .ok (.null, none)
  | .str s => .ok (.str s, none)
  | _ => .error interfaceConversionPanicMsg

/-- The TypeInt case, lines 490 to 498: null propagates, a native integer
passes through, a float64 is truncated toward zero, any other shape fails
the float64 type assertion. -/
def convertIntPayload (propertyValue : Value) : Except String (Value × Option String) :=
  match propertyValue with
  | .null => .ok (.null, none)
  | .int n => .ok (.int n, none)
  | .float q => .ok (.int (ratTrunc q), none)
  | _ => .error interfaceConversionPanicMsg

/-- The TypeFloat case, lines 499 to 503. -/
def convertFloatPayload (propertyValue : Value) : Except String (Value × Option String) :=
  match propertyValue with
  | .null => .ok (.null, none)
  | .float q => .ok (.float q, none)
  | _ => .error interfaceConversionPanicMsg

/-- The TypeBool case, lines 504 to 508. -/
def convertBoolPayload (propertyValue : Value) : Except String (Value × Option String) :=
  match propertyValue with
  | .null => .ok (.null, none)
  | .bool b => .ok (.bool b, none)
  | _ => .error interfaceConversionPanicMsg

/-- The Go slice type assertion v.([]interface braces) applied to a possibly
nil value, lines 393 to 395 and elsewhere: nil becomes the empty slice, a
slice passes through, anything else panics. -/
def asArrayOrEmpty (v : Value) : Except String (List Value) :=
  match v with
  | .null => .ok []
  | .arr a => .ok a
  | _ => .error interfaceConversionPanicMsg

mutual

/-- convertPayloadToLocalStateDataValue, openapi/common.go lines 376 to 512:
the write-only guard followed by the type switch. -/
def convertPayloadToLocalStateDataValue (property : SpecProp)
    (propertyValue propertyLocalStateValue : Value) (isFromAPI : Bool) :
    Except String (Value × Option String) :=
  if property.writeOnly then .ok (propertyLocalStateValue, none)
  else
    match property.type_ with
    | PropType.object =>
        convertObjectToLocalStateData property propertyValue propertyLocalStateValue
    | PropType.list => convertListPayload property propertyValue propertyLocalStateValue
    | PropType.set =>
        convertSetPayload property propertyValue propertyLocalStateValue isFromAPI
    | PropType.string => convertStringPayload propertyValue
    | PropType.int => convertIntPayload propertyValue
    | PropType.float => convertFloatPayload propertyValue
    | PropType.bool => convertBoolPayload propertyValue
termination_by (sizeOf property, 5, 0)
decreasing_by
  all_goals simp_wf
  all_goals apply Prod.Lex.right
  all_goals apply Prod.Lex.left
  all_goals omega

/-- The TypeList case, lines 385 to 419: primitive element lists pass
through; object element lists are merged positionally; any other element
kind is a SchemaMismatch error return. -/
def convertListPayload (property : SpecProp)
    (propertyValue propertyLocalStateValue : Value) :
    Except String (Value × Option String) :=
  if isTerraformListOfSimpleValues property then .ok (propertyValue, none)
  else if isArrayOfObjectsProperty property then do
    let arrayValue ← asArrayOrEmpty propertyValue
    let localStateArrayValue ← asArrayOrEmpty propertyLocalStateValue
    mergeOrderedListLoop property arrayValue localStateArrayValue []
  else
    .ok (.null, some ("property " ++ property.name ++
      " is supposed to be an array objects"))
termination_by (sizeOf property, 4, 0)
decreasing_by
  all_goals simp_wf
  all_goals apply Prod.Lex.right
  all_goals apply Prod.Lex.left
  all_goals omega

/-- The TypeSet case, lines 420 to 484: primitive element sets pass through;
object element sets are converted from the wire array to an SDK set and then
reconciled by hash against the local set; any other element kind is a
SchemaMismatch error return. The local value is asserted to an SDK set (or
replaced by an empty set when nil) before the conversion error check, as in
the source. -/
def convertSetPayload (property : SpecProp)
    (propertyValue propertyLocalStateValue : Value) (isFromAPI : Bool) :
    Except String (Value × Option String) :=
  if isTerraformSetOfSimpleValues property then .ok (propertyValue, none)
  else if isSetOfObjectsProperty property then do
    let sv ←
      if isFromAPI then do
        let arrayValue ← asArrayOrEmpty propertyValue
        deepConvertArrayToSet property (Value.arr arrayValue)
      else Except.ok (propertyValue, none)
    let setLocalElems ←
      match propertyLocalStateValue with
      | .null => Except.ok []
      | .set elems => Except.ok elems
      | _ => Except.error interfaceConversionPanicMsg
    match sv.2 with
    | some e => Except.ok (Value.goErr e, none)
    | none =>
        match sv.1 with
        | .set setElems => mergeSetOuterLoop property setLocalElems setElems []
        | _ => Except.error interfaceConversionPanicMsg
  else
    .ok (.null, some ("property " ++ property.name ++
      " is supposed to be an set objects"))
termination_by (sizeOf property, 4, 0)
decreasing_by
  all_goals simp_wf
  all_goals apply Prod.Lex.right
  all_goals apply Prod.Lex.left
  all_goals omega

/-- The positional index loop of the array-of-objects branch, lines 402 to
416: out-of-range positions on either side are null, and a nested merge
error is returned as the value with a nil error (line 413). -/
def mergeOrderedListLoop (property : SpecProp) (remotes locals acc : List Value) :
    Except String (Value × Option String) :=
  match remotes, locals with
  | [], [] => .ok (.arr acc, none)
  | r :: rs, [] => do
      let ov ← convertObjectToLocalStateData property r Value.null
      match ov.2 with
      | some e => Except.ok (Value.goErr e, none)
      | none => mergeOrderedListLoop property rs [] (acc ++ [ov.1])
  | [], l :: ls => do
      let ov ← convertObjectToLocalStateData property Value.null l
      match ov.2 with
      | some e => Except.ok (Value.goErr e, none)
      | none => mergeOrderedListLoop property [] ls (acc ++ [ov.1])
  | r :: rs, l :: ls => do
      let ov ← convertObjectToLocalStateData property r l
      match ov.2 with
      | some e => Except.ok (Value.goErr e, none)
      | none => mergeOrderedListLoop property rs ls (acc ++ [ov.1])
termination_by (sizeOf property, 2, remotes.length + locals.length)
decreasing_by
  all_goals simp_wf
  all_goals apply Prod.Lex.right
  all_goals first
    | (apply Prod.Lex.left; omega)
    | (apply Prod.Lex.right; first
        | omega
        | (simp <;> omega))

/-- The inner scan of the hash-based set reconciliation, lines 454 to 467:
the remote element is merged against every hash-equal local element (the
loop has no break), each merge result is added to the output set, and a
merge error is returned as the value with a nil error (line 463). -/
def mergeSetMatchLocals (property : SpecProp) (v1 : Value) (locals : List Value)
    (acc : List Value) (matched : Bool) :
    Except String ((Value × Option String) ⊕ (List Value × Bool)) :=
  match locals with
  | [] => .ok (.inr (acc, matched))
  | v2 :: rest =>
      if hashComplexObject v2 = hashComplexObject v1 then do
        let ov ← convertObjectToLocalStateData property v1 v2
        match ov.2 with
        | some e => Except.ok (.inl (Value.goErr e, none))
        | none => mergeSetMatchLocals property v1 rest (setAdd acc ov.1) true
      else mergeSetMatchLocals property v1 rest acc matched
termination_by (sizeOf property, 2, locals.length)
decreasing_by
  all_goals simp_wf
  all_goals apply Prod.Lex.right
  all_goals first
    | (apply Prod.Lex.left; omega)
    | (apply Prod.Lex.right; simp)

/-- The outer loop of the hash-based set reconciliation, lines 450 to 479:
each remote element is scanned against the local collection; with no
hash-equal local element it is merged against a null prior state (line 471). -/
def mergeSetOuterLoop (property : SpecProp) (locals remotes acc : List Value) :
    Except String (Value × Option String) :=
  match remotes with
  | [] => .ok (.set acc, none)
  | v1 :: rest => do
      let st ← mergeSetMatchLocals property v1 locals acc false
      match st with
      | .inl out => Except.ok out
      | .inr (accNew, matched) =>
          if matched then mergeSetOuterLoop property locals rest accNew
          else do
            let ov ← convertObjectToLocalStateData property v1 Value.null
            match ov.2 with
            | some e => Except.ok (Value.goErr e, none)
            | none => mergeSetOuterLoop property locals rest (setAdd accNew ov.1)
termination_by (sizeOf property, 3, remotes.length)
decreasing_by
  all_goals simp_wf
  all_goals apply Prod.Lex.right
  all_goals first
    | (apply Prod.Lex.left; omega)
    | (apply Prod.Lex.right; simp)

/-- convertObjectToLocalStateData, openapi/common.go lines 514 to 555:
normalizes a null payload to an empty mapping, unwraps a single-element
array local state, merges every schema child, and re-wraps the result when
the legacy wrapper policy applies. A local state of any other shape (or an
array whose length is not one) is treated as the empty mapping, as in the
source kind switch. -/
def convertObjectToLocalStateData (property : SpecProp)
    (propertyValue propertyLocalStateValue : Value) :
    Except String (Value × Option String) := do
  let mapValue ←
    match propertyValue with
    | .null => Except.ok []
    | .obj m => Except.ok m
    | _ => Except.error interfaceConversionPanicMsg
  let localStateMapValue ←
    match propertyLocalStateValue with
    | .obj m => Except.ok m
    | .arr l =>
        match l with
        | [x] =>
            match x with
            | .obj m => Except.ok m
            | _ => Except.error interfaceConversionPanicMsg
        | _ => Except.ok []
    | _ => Except.ok []
  let res ← convertChildrenLoop property.children mapValue localStateMapValue []
  match res with
  | .inl err => Except.ok (Value.null, some err)
  | .inr objectInput =>
      if shouldUseLegacyTerraformSDKBlockApproachForComplexObjects property then
        Except.ok (Value.arr [Value.obj objectInput], none)
      else Except.ok (Value.obj objectInput, none)
termination_by (sizeOf property, 1, 0)
decreasing_by
  all_goals simp_wf
  all_goals apply Prod.Lex.left
  all_goals exact SpecProp.sizeOf_children_lt property

/-- The child-property loop of convertObjectToLocalStateData, lines 532 to
544: a child error aborts with that error; otherwise the merged child value
is stored under the schema-declared compliant name. -/
def convertChildrenLoop (props : List SpecProp)
    (mapValue localStateMapValue : List (String × Value))
    (acc : List (String × Value)) : Except String (String ⊕ List (String × Value)) :=
  match props with
  | [] => .ok (.inr acc)
  | child :: rest => do
      let pv ← convertPayloadToLocalStateDataValue child (lookupValue mapValue child.name)
        (lookupValue localStateMapValue child.name) false
      match pv.2 with
      | some err => Except.ok (.inl err)
      | none =>
          convertChildrenLoop rest mapValue localStateMapValue
            (acc ++ [(getTerraformCompliantPropertyName child, pv.1)])
termination_by (sizeOf props, 0, 0)
decreasing_by
  all_goals simp_wf
  all_goals apply Prod.Lex.left
  all_goals first
    | omega
    | (simp <;> omega)

/-- deepConvertArrayToSet, openapi/common.go lines 277 to 303: an array value
of a set property becomes an SDK set, converting each element when the
elements are objects; any other value passes through unchanged. -/
def deepConvertArrayToSet (property : SpecProp) (v : Value) :
    Except String (Value × Option String) :=
  match v with
  | .arr elems =>
      if isSetProperty property then do
        let res ← deepConvertSetElemsLoop property elems []
        match res with
        | .inl err => Except.ok (Value.null, some err)
        | .inr setElems => Except.ok (Value.set setElems, none)
      else Except.ok (.arr elems, none)
  | other => Except.ok (other, none)
termination_by (sizeOf property, 3, sizeOf v)
decreasing_by
  all_goals simp_wf
  all_goals apply Prod.Lex.right
  all_goals apply Prod.Lex.left
  all_goals omega

/-- The element loop of deepConvertArrayToSet, lines 284 to 294. -/
def deepConvertSetElemsLoop (property : SpecProp) (elems : List Value) (acc : List Value) :
    Except String (String ⊕ List Value) :=
  match elems with
  | [] => .ok (.inr acc)
  | elem :: rest =>
      if isSetOfObjectsProperty property then do
        let cv ← deepConvertArrayToSetMapNew property.children elem
        match cv.2 with
        | some err => Except.ok (.inl err)
        | none => deepConvertSetElemsLoop property rest (setAdd acc cv.1)
      else deepConvertSetElemsLoop property rest (setAdd acc elem)
termination_by (sizeOf property, 2, sizeOf elems)
decreasing_by
  all_goals simp_wf
  all_goals first
    | (apply Prod.Lex.left; exact SpecProp.sizeOf_children_lt property)
    | (apply Prod.Lex.right; apply Prod.Lex.right; simp <;> omega)

/-- deepConvertArrayToSetMapNew, openapi/common.go lines 345 to 374: asserts
the element to a mapping (an error return otherwise) and rebuilds it keeping
only schema-named fields, converting set-of-object children. -/
def deepConvertArrayToSetMapNew (properties : List SpecProp) (object : Value) :
    Except String (Value × Option String) :=
  match object with
  | .obj inputMap => do
      let res ← deepConvertMapFieldsLoop properties inputMap []
      match res with
      | .inl err => Except.ok (Value.null, some err)
      | .inr newMap => Except.ok (Value.obj newMap, none)
  | _ => Except.ok (Value.null, some "object is not a map")
termination_by (sizeOf properties, 2, sizeOf object)
decreasing_by
  all_goals simp_wf
  all_goals apply Prod.Lex.right
  all_goals apply Prod.Lex.left
  all_goals omega

/-- The field loop of deepConvertArrayToSetMapNew, lines 354 to 371. -/
def deepConvertMapFieldsLoop (properties : List SpecProp)
    (fields : List (String × Value)) (acc : List (String × Value)) :
    Except String (String ⊕ List (String × Value)) :=
  match fields with
  | [] => .ok (.inr acc)
  | (key, value) :: rest => do
      let res ← deepConvertFieldPropsLoop properties key value acc
      match res with
      | .inl err => Except.ok (.inl err)
      | .inr accNew => deepConvertMapFieldsLoop properties rest accNew
termination_by (sizeOf properties, 1, sizeOf fields)
decreasing_by
  all_goals simp_wf
  all_goals apply Prod.Lex.right
  all_goals first
    | (apply Prod.Lex.left; omega)
    | (apply Prod.Lex.right; first
        | omega
        | (simp <;> omega))

/-- The property scan inside the field loop, lines 356 to 369: every property
whose name equals the field key stores the (possibly converted) value; other
fields are dropped. The converted child is asserted to an SDK set (a runtime
panic otherwise). -/
def deepConvertFieldPropsLoop (properties : List SpecProp) (key : String) (value : Value)
    (acc : List (String × Value)) : Except String (String ⊕ List (String × Value)) :=
  match properties with
  | [] => .ok (.inr acc)
  | p :: rest =>
      if key == p.name then
        if isSetOfObjectsProperty p then do
          let cv ← deepConvertArrayToSet p value
          match cv.2 with
          | some e => Except.ok (.inl e)
          | none =>
              match cv.1 with
              | .set es => deepConvertFieldPropsLoop rest key value (assocSet acc key (.set es))
              | _ => Except.error interfaceConversionPanicMsg
        else deepConvertFieldPropsLoop rest key value (assocSet acc key value)
      else deepConvertFieldPropsLoop rest key value acc
termination_by (sizeOf properties, 0, 0)
decreasing_by
  all_goals simp_wf
  all_goals apply Prod.Lex.left
  all_goals first
    | omega
    | (simp <;> omega)

end

/-! ### Identifier extraction (setStateID, openapi/common.go lines 565 to 587)

The schema lookup that designates the identifier property happens behind the
SpecResource interface; the function is modelled from the point where the
identifier property name is known, which is where the verified file takes
over. The default branch of the type switch asserts the value to a string;
for any other shape the assertion is a runtime panic. -/

/-- The outcome of setStateID: the identifier written into the state, an
error return, or a runtime panic. -/
inductive SetIdResult where
  | ok (id : String)
  | err (msg : String)
  | panicked (msg : String)
  deriving DecidableEq, Repr

/-- setStateID, openapi/common.go lines 565 to 587. -/
def setStateID (identifierProperty : String) (payload : List (String × Value)) :
    SetIdResult :=
  if lookupValue payload identifierProperty = Value.null then
    .err ("response object returned from the API is missing mandatory identifier property "
      ++ identifierProperty)
  else
    match lookupValue payload identifierProperty with
    | .int n => .ok (toString n)
    | .float q => .ok (toString (ratTrunc q))
    | .str s => .ok s
    | _ => .panicked interfaceConversionPanicMsg

/-! ### The state update loop
(updateStateWithPayloadDataAndOptions, openapi/common.go lines 121 to 154)

The schema accessor getProperty and the state container ResourceData live
behind external interfaces; the model keeps the loop structure of the
verified file. The state is an association list keyed by the compliant
property name; the SDK calls Get (zero value null when unset) and Set
(always succeeds in the model) are lookupValue and assocSet. Go iterates the
remote payload map in unspecified order; the model iterates the association
list in list order, one admissible enumeration. -/

/-- Modelled from the spec: schema property lookup by name (the schema is an
ordered collection of properties keyed by unique names); an unknown name is
none, which the loop skips. -/
def getProperty (props : List SpecProp) (name : String) : Option SpecProp :=
  props.find? (fun p => p.name == name)

/-- Modelled from the spec: the identifier property is skipped by the state
update loop. -/
def isPropertyNamedID (p : SpecProp) : Bool := p.name == "id"

/-- updateStateWithPayloadDataAndOptions, openapi/common.go lines 121 to 154.
The result carries the returned error (if any) and the final state; the
outer Except models a panic escaping from the reorder policy or the
coercion. -/
def updateStateWithPayloadDataAndOptions (schemaProps : List SpecProp)
    (remoteData : List (String × Value)) (state : List (String × Value))
    (ignoreListOrderEnabled : Bool) :
    Except String (Option String × List (String × Value)) :=
  match remoteData with
  | [] => .ok (none, state)
  | (propertyName, propertyRemoteValue) :: rest =>
      match getProperty schemaProps propertyName with
      | none => updateStateWithPayloadDataAndOptions schemaProps rest state ignoreListOrderEnabled
      | some property =>
          if isPropertyNamedID property then
            updateStateWithPayloadDataAndOptions schemaProps rest state ignoreListOrderEnabled
          else do
            let propertyLocalStateValue :=
              lookupValue state (getTerraformCompliantPropertyName property)
            let propValue ←
              if ignoreListOrderEnabled && shouldIgnoreOrder property then
                processIgnoreOrderIfEnabled property propertyLocalStateValue propertyRemoteValue
              else pure propertyRemoteValue
            let cv ← convertPayloadToLocalStateDataValue property propValue
              propertyLocalStateValue true
            match cv.2 with
            | some e => Except.ok (some e, state)
            | none =>
                if cv.1 ≠ Value.null then
                  updateStateWithPayloadDataAndOptions schemaProps rest
                    (assocSet state (getTerraformCompliantPropertyName property) cv.1)
                    ignoreListOrderEnabled
                else
                  updateStateWithPayloadDataAndOptions schemaProps rest state
                    ignoreListOrderEnabled

/-! ## Claim theorems -/

/-- C3: for every property whose writeOnly flag is set, and for every remote
value (including null and values differing from the local value), coercion
returns the local state value unchanged without inspecting the remote value. -/
theorem writeOnly_coercion_returns_local (property : SpecProp)
    (remoteValue localValue : Value) (isFromAPI : Bool)
    (h : property.writeOnly = true) :
    convertPayloadToLocalStateDataValue property remoteValue localValue isFromAPI =
      .ok (localValue, none) := by
  unfold convertPayloadToLocalStateDataValue
  rw [if_pos h]

theorem writeOnly_coercion_returns_local_witness :
    convertPayloadToLocalStateDataValue
      (SpecProp.mk "w" PropType.string PropType.string true false false [])
      Value.null (Value.str "local") true = .ok (Value.str "local", none) :=
  writeOnly_coercion_returns_local _ _ _ _ rfl

/-- C6 (counterexample): with a non-null prior value and a null remote value
the reorder policy returns the null remote value, not the non-null prior
input, so the claim that the other, non-null input is returned fails. -/
theorem processIgnoreOrder_null_remote_counterexample :
    processIgnoreOrderIfEnabled
      (SpecProp.mk "l" PropType.list PropType.string false true false [])
      (Value.arr [Value.str "x"]) Value.null = .ok Value.null ∧
    (Except.ok Value.null : Except String Value) ≠ .ok (Value.arr [Value.str "x"]) := by
  exact ⟨rfl, by simp⟩

/-- C6 (amended): whenever either reorder input is null, the policy returns
the remote value: the other input when the prior is null, but null (not the
prior) when the remote is null. -/
theorem processIgnoreOrder_null_input_returns_remote (property : SpecProp)
    (inputPropertyValue remoteValue : Value)
    (h : inputPropertyValue = Value.null ∨ remoteValue = Value.null) :
    processIgnoreOrderIfEnabled property inputPropertyValue remoteValue = .ok remoteValue := by
  unfold processIgnoreOrderIfEnabled
  rw [if_pos h]

theorem processIgnoreOrder_null_input_returns_remote_witness :
    processIgnoreOrderIfEnabled
      (SpecProp.mk "l" PropType.list PropType.string false true false [])
      Value.null (Value.arr [Value.str "x"]) = .ok (Value.arr [Value.str "x"]) :=
  processIgnoreOrder_null_input_returns_remote _ _ _ (Or.inl rfl)

/-- C8: identifier extraction fails with an error when the designated
identifier property is absent or null in the payload; a floating-point
identifier is set as the decimal string of its truncation toward zero; a
native integer is set as its decimal digit string. -/
theorem setStateID_identifier_coercion (identifierProperty : String)
    (payload : List (String × Value)) :
    (lookupValue payload identifierProperty = Value.null →
      setStateID identifierProperty payload =
        .err ("response object returned from the API is missing mandatory identifier property "
          ++ identifierProperty)) ∧
    (∀ q : Rat, lookupValue payload identifierProperty = Value.float q →
      setStateID identifierProperty payload = .ok (toString (ratTrunc q))) ∧
    (∀ n : Int, lookupValue payload identifierProperty = Value.int n →
      setStateID identifierProperty payload = .ok (toString n)) := by
  refine ⟨fun h => ?_, fun q h => ?_, fun n h => ?_⟩ <;>
    · unfold setStateID
      rw [h]
      simp

theorem setStateID_identifier_coercion_witness :
    setStateID "id" [("id", Value.float 42)] = .ok "42" ∧
    setStateID "id" [("name", Value.str "x")] =
      .err "response object returned from the API is missing mandatory identifier property id" ∧
    setStateID "id" [("id", Value.int 7)] = .ok "7" := by
  refine ⟨?_, ?_, ?_⟩
  · have h := (setStateID_identifier_coercion "id" [("id", Value.float 42)]).2.1 42 rfl
    rw [h]
    rfl
  · have h := (setStateID_identifier_coercion "id" [("name", Value.str "x")]).1 rfl
    rw [h]
    rfl
  · have h := (setStateID_identifier_coercion "id" [("id", Value.int 7)]).2.2 7 rfl
    rw [h]
    rfl

/-- C9 (counterexample): a boolean identifier value reaches the default
branch of the type switch, whose string type assertion is a runtime panic,
not an UnsupportedIdentifierType error return. -/
theorem setStateID_boolean_identifier_panics :
    setStateID "id" [("id", Value.bool true)] = .panicked interfaceConversionPanicMsg := by
  rfl

/-- C9 (amended): for every payload whose identifier property holds a value
that is neither null, an integer, a floating-point number, nor a string, the
default branch of the type switch panics on its string type assertion
instead of returning an error. -/
theorem setStateID_non_scalar_panics (identifierProperty : String)
    (payload : List (String × Value)) (v : Value)
    (hv : lookupValue payload identifierProperty = v)
    (hnull : v ≠ Value.null) (hint : ∀ n, v ≠ Value.int n)
    (hfloat : ∀ q, v ≠ Value.float q) (hstr : ∀ s, v ≠ Value.str s) :
    setStateID identifierProperty payload = .panicked interfaceConversionPanicMsg := by
  unfold setStateID
  rw [hv]
  cases v with
  | null => exact absurd rfl hnull
  | int n => exact absurd rfl (hint n)
  | float q => exact absurd rfl (hfloat q)
  | str s => exact absurd rfl (hstr s)
  | _ => simp

theorem setStateID_non_scalar_panics_witness :
    setStateID "id" [("id", Value.obj [("k", Value.str "v")])] =
      .panicked interfaceConversionPanicMsg :=
  setStateID_non_scalar_panics "id" _ (Value.obj [("k", Value.str "v")]) rfl
    (by simp) (by simp) (by simp) (by simp)

/-- C2 (code evaluation at the failing input): a list-of-objects property
whose nested child coercion fails makes convertPayloadToLocalStateDataValue
return the nested error in the value slot with a nil error (the source line
413 returns the pair err, nil), so the caller observes a success whose value
is the error object; the claim that the innermost error is surfaced as a
non-nil error result does not hold of the code. -/
theorem nested_merge_error_returned_as_value :
    convertPayloadToLocalStateDataValue
      (SpecProp.mk "p" PropType.list PropType.object false false false
        [SpecProp.mk "q" PropType.list PropType.list false false false []])
      (Value.arr [Value.obj []]) Value.null true =
      .ok (Value.goErr "property q is supposed to be an array objects", none) := by
  simp only [convertPayloadToLocalStateDataValue, convertListPayload, mergeOrderedListLoop,
    convertObjectToLocalStateData, convertChildrenLoop, asArrayOrEmpty, lookupValue,
    isTerraformListOfSimpleValues, isArrayOfObjectsProperty, SpecProp.children, SpecProp.name,
    SpecProp.type_, SpecProp.writeOnly, SpecProp.arrayItemsType, List.find?,
    bind, Except.bind, pure, Except.pure, Bool.false_eq_true, if_false, if_true, reduceIte]
  rfl

/-! ## Key-order invariance of the hasher (C7) -/

theorem hashFields_eq_map :
    ∀ l : List (String × Value),
      hashFields l = l.map (fun kv => (kv.1, hashComplexObject kv.2))
  | [] => rfl
  | (k, v) :: r => by simp [hashFields, hashFields_eq_map r]

/-- The strict companion of keyLE used to identify the two sorted buffers. -/
def keyStrict (a b : String × Nat) : Prop := keyLE a b ∧ a.1 ≠ b.1

instance : IsAntisymm (String × Nat) keyStrict :=
  ⟨fun a b h1 h2 => absurd (strLE_antisymm h1.1 h2.1) h1.2⟩

theorem sorted_keyStrict_of_sorted_keyLE {l : List (String × Nat)}
    (hs : List.Sorted keyLE l) (hn : (l.map Prod.fst).Nodup) :
    List.Sorted keyStrict l := by
  have hp : l.Pairwise (fun a b : String × Nat => a.1 ≠ b.1) :=
    (List.pairwise_map).mp hn
  exact hs.and hp

/-- C7: hashing is key-order invariant for mappings: two mappings with the
same key-value pairs (a permutation with no duplicate keys, the Go map
discipline) hash identically, because the buffer is built in sorted key
order. -/
theorem hashComplexObject_key_order_invariant (fields1 fields2 : List (String × Value))
    (hperm : fields1.Perm fields2) (hnodup : (fields1.map Prod.fst).Nodup) :
    hashComplexObject (Value.obj fields1) = hashComplexObject (Value.obj fields2) := by
  have hpermh : (hashFields fields1).Perm (hashFields fields2) := by
    rw [hashFields_eq_map, hashFields_eq_map]
    exact hperm.map _
  have hkeys1 : ((hashFields fields1).map Prod.fst).Nodup := by
    rw [hashFields_eq_map]
    simpa [List.map_map, Function.comp] using hnodup
  have hkeys2 : ((hashFields fields2).map Prod.fst).Nodup :=
    (hpermh.map Prod.fst).nodup_iff.mp hkeys1
  have hsorted1 := List.sorted_insertionSort keyLE (hashFields fields1)
  have hsorted2 := List.sorted_insertionSort keyLE (hashFields fields2)
  have hsortkeys1 : ((List.insertionSort keyLE (hashFields fields1)).map Prod.fst).Nodup :=
    ((List.perm_insertionSort keyLE (hashFields fields1)).map Prod.fst).nodup_iff.mpr hkeys1
  have hsortkeys2 : ((List.insertionSort keyLE (hashFields fields2)).map Prod.fst).Nodup :=
    ((List.perm_insertionSort keyLE (hashFields fields2)).map Prod.fst).nodup_iff.mpr hkeys2
  have hps : (List.insertionSort keyLE (hashFields fields1)).Perm
      (List.insertionSort keyLE (hashFields fields2)) :=
    (List.perm_insertionSort keyLE (hashFields fields1)).trans
      (hpermh.trans (List.perm_insertionSort keyLE (hashFields fields2)).symm)
  have heq : List.insertionSort keyLE (hashFields fields1) =
      List.insertionSort keyLE (hashFields fields2) :=
    List.eq_of_perm_of_sorted hps
      (sorted_keyStrict_of_sorted_keyLE hsorted1 hsortkeys1)
      (sorted_keyStrict_of_sorted_keyLE hsorted2 hsortkeys2)
  simp only [hashComplexObject, objBuffer, heq]

theorem hashComplexObject_key_order_invariant_witness :
    hashComplexObject (Value.obj [("a", Value.int 1), ("b", Value.str "x")]) =
      hashComplexObject (Value.obj [("b", Value.str "x"), ("a", Value.int 1)]) :=
  hashComplexObject_key_order_invariant _ _ (by decide) (by decide)

/-! ## The reorder policy against the spec wording (C5) -/

/-- The reorder result as the spec words it: for each element of the prior
order, in order, the first deep-equal remote element when one exists
anywhere in the remote array; then every remote element with no deep-equal
prior counterpart, in remote order. -/
def reorderSpec (itemsType : PropType) (priorOrder remote : List Value) : List Value :=
  priorOrder.filterMap (fun i => remote.find? (fun r => equalItems itemsType i r)) ++
    remote.filter (fun r => !priorOrder.any (fun i => equalItems itemsType i r))

theorem findEqualRemoteLoop_eq_find (itemsType : PropType) (i : Value) :
    ∀ rs : List Value,
      findEqualRemoteLoop itemsType i rs = rs.find? (fun r => equalItems itemsType i r)
  | [] => rfl
  | r :: rest => by
      simp only [findEqualRemoteLoop, List.find?]
      by_cases h : equalItems itemsType i r
      · simp [h]
      · simp [h, findEqualRemoteLoop_eq_find itemsType i rest]

theorem anyEqualInputLoop_eq_any (itemsType : PropType) (r : Value) :
    ∀ is : List Value,
      anyEqualInputLoop itemsType r is = is.any (fun i => equalItems itemsType i r)
  | [] => rfl
  | i :: rest => by
      simp only [anyEqualInputLoop, List.any]
      by_cases h : equalItems itemsType i r
      · simp [h]
      · simp [h, anyEqualInputLoop_eq_any itemsType r rest]

theorem matchedInputItemsLoop_eq_filterMap (itemsType : PropType) (rs : List Value) :
    ∀ is : List Value,
      matchedInputItemsLoop itemsType rs is =
        is.filterMap (fun i => rs.find? (fun r => equalItems itemsType i r))
  | [] => rfl
  | i :: rest => by
      simp only [matchedInputItemsLoop, List.filterMap, findEqualRemoteLoop_eq_find]
      cases h : rs.find? (fun r => equalItems itemsType i r) with
      | none => simp [h, matchedInputItemsLoop_eq_filterMap itemsType rs rest]
      | some rv => simp [h, matchedInputItemsLoop_eq_filterMap itemsType rs rest]

theorem modifiedItemsLoop_eq_filter (itemsType : PropType) (is : List Value) :
    ∀ rs : List Value,
      modifiedItemsLoop itemsType is rs =
        rs.filter (fun r => !is.any (fun i => equalItems itemsType i r))
  | [] => rfl
  | r :: rest => by
      simp only [modifiedItemsLoop, List.filter, anyEqualInputLoop_eq_any]
      cases h : is.any (fun i => equalItems itemsType i r) with
      | true => simp [h, modifiedItemsLoop_eq_filter itemsType is rest]
      | false => simp [h, modifiedItemsLoop_eq_filter itemsType is rest]

/-- C5: for every ignore-order list property with non-null prior and remote
arrays, the reorder policy returns the deep-equal remote counterparts of the
prior elements in prior order followed by the unmatched remote elements in
remote order, exactly as the spec words it. -/
theorem processIgnoreOrder_matches_spec (property : SpecProp)
    (priorOrder remote : List Value)
    (h : shouldIgnoreOrder property = true) :
    processIgnoreOrderIfEnabled property (Value.arr priorOrder) (Value.arr remote) =
      .ok (Value.arr (reorderSpec property.arrayItemsType priorOrder remote)) := by
  unfold processIgnoreOrderIfEnabled
  rw [if_neg (by simp), if_pos h]
  simp [reorderSpec, matchedInputItemsLoop_eq_filterMap, modifiedItemsLoop_eq_filter]

theorem processIgnoreOrder_matches_spec_witness :
    processIgnoreOrderIfEnabled
      (SpecProp.mk "l" PropType.list PropType.string false true false [])
      (Value.arr [Value.str "x", Value.str "y"])
      (Value.arr [Value.str "y", Value.str "x", Value.str "w"]) =
      .ok (Value.arr [Value.str "x", Value.str "y", Value.str "w"]) ∧
    processIgnoreOrderIfEnabled
      (SpecProp.mk "l" PropType.list PropType.string false true false [])
      (Value.arr [Value.str "x", Value.str "y", Value.str "z"])
      (Value.arr [Value.str "z", Value.str "y", Value.str "x"]) =
      .ok (Value.arr [Value.str "x", Value.str "y", Value.str "z"]) := by
  constructor
  · rw [processIgnoreOrder_matches_spec
      (SpecProp.mk "l" PropType.list PropType.string false true false []) _ _ rfl]
    rfl
  · rw [processIgnoreOrder_matches_spec
      (SpecProp.mk "l" PropType.list PropType.string false true false []) _ _ rfl]
    rfl

/-! ## Frame behaviour of the state update loop (C10) -/

/-- C10: when coercion of a property yields a nil merged value (for example a
primitive-typed property whose remote value is null), the state update loop
does not write the property at all and returns with the state unchanged, so
the previously persisted value of that property and every other property are
retained. -/
theorem updateState_skips_null_coercion (schemaProps : List SpecProp)
    (propertyName : String) (propertyRemoteValue : Value)
    (state : List (String × Value)) (ignoreListOrderEnabled : Bool) (property : SpecProp)
    (hget : getProperty schemaProps propertyName = some property)
    (hid : isPropertyNamedID property = false)
    (hord : shouldIgnoreOrder property = false)
    (hconv : convertPayloadToLocalStateDataValue property propertyRemoteValue
      (lookupValue state (getTerraformCompliantPropertyName property)) true =
      .ok (Value.null, none)) :
    updateStateWithPayloadDataAndOptions schemaProps [(propertyName, propertyRemoteValue)]
      state ignoreListOrderEnabled = .ok (none, state) := by
  simp only [updateStateWithPayloadDataAndOptions, hget, hid, hord, Bool.and_false,
    Bool.false_eq_true, if_false, pure, Except.pure, bind, Except.bind, hconv]
  simp

theorem updateState_skips_null_coercion_witness :
    updateStateWithPayloadDataAndOptions
      [SpecProp.mk "p" PropType.string PropType.string false false false []]
      [("p", Value.null)] [("p", Value.str "old")] true =
      .ok (none, [("p", Value.str "old")]) :=
  updateState_skips_null_coercion _ _ _ _ _ _ rfl rfl rfl
    (by unfold convertPayloadToLocalStateDataValue; rfl)

/-! ## Lemmas about the hash-based set reconciliation loops (C1, C4) -/

theorem setAdd_mem_subset {acc : List Value} {v a : Value} (ha : a ∈ acc) :
    a ∈ setAdd acc v := by
  unfold setAdd
  split
  · exact ha
  · exact List.mem_append_left _ ha

theorem setAdd_mem {acc : List Value} {v a : Value} (ha : a ∈ setAdd acc v) :
    a ∈ acc ∨ a = v := by
  unfold setAdd at ha
  split at ha
  · exact Or.inl ha
  · rcases List.mem_append.mp ha with h | h
    · exact Or.inl h
    · exact Or.inr (List.mem_singleton.mp h)

theorem setAdd_key (acc : List Value) (v : Value) :
    ∃ o ∈ setAdd acc v, hashComplexObject o = hashComplexObject v := by
  unfold setAdd
  split
  · rename_i hany
    obtain ⟨w, hw, hbeq⟩ := List.any_eq_true.mp hany
    exact ⟨w, hw, Nat.beq_eq ▸ (by simpa using hbeq)⟩
  · exact ⟨v, List.mem_append_right _ (List.mem_singleton.mpr rfl), rfl⟩

theorem mergeSetMatchLocals_persist (property : SpecProp) (v1 : Value) :
    ∀ (locals acc : List Value) (m : Bool) (acc' : List Value) (m' : Bool),
      mergeSetMatchLocals property v1 locals acc m = .ok (.inr (acc', m')) →
      ∀ a ∈ acc, a ∈ acc' := by
  intro locals
  induction locals with
  | nil =>
      intro acc m acc' m' h a ha
      simp only [mergeSetMatchLocals] at h
      obtain ⟨h1, h2⟩ := by simpa using h
      exact h1 ▸ ha
  | cons v2 rest ih =>
      intro acc m acc' m' h a ha
      simp only [mergeSetMatchLocals] at h
      by_cases hh : hashComplexObject v2 = hashComplexObject v1
      · rw [if_pos hh] at h
        cases hotl : convertObjectToLocalStateData property v1 v2 with
        | error e =>
            rw [hotl] at h
            simp [bind, Except.bind] at h
        | ok ov =>
            rw [hotl] at h
            simp only [bind, Except.bind] at h
            cases hov : ov.2 with
            | some e =>
                rw [hov] at h
                simp at h
            | none =>
                rw [hov] at h
                exact ih (setAdd acc ov.1) true acc' m' h a (setAdd_mem_subset ha)
      · rw [if_neg hh] at h
        exact ih acc m acc' m' h a ha

theorem mergeSetMatchLocals_inl_shape (property : SpecProp) (v1 : Value) :
    ∀ (locals acc : List Value) (m : Bool) (p : Value × Option String),
      mergeSetMatchLocals property v1 locals acc m = .ok (.inl p) →
      ∃ e, p = (Value.goErr e, none) := by
  intro locals
  induction locals with
  | nil =>
      intro acc m p h
      simp only [mergeSetMatchLocals] at h
      simp at h
  | cons v2 rest ih =>
      intro acc m p h
      simp only [mergeSetMatchLocals] at h
      by_cases hh : hashComplexObject v2 = hashComplexObject v1
      · rw [if_pos hh] at h
        cases hotl : convertObjectToLocalStateData property v1 v2 with
        | error e =>
            rw [hotl] at h
            simp [bind, Except.bind] at h
        | ok ov =>
            rw [hotl] at h
            simp only [bind, Except.bind] at h
            cases hov : ov.2 with
            | some e =>
                rw [hov] at h
                simp at h
                exact ⟨e, by simp [h]⟩
            | none =>
                rw [hov] at h
                exact ih (setAdd acc ov.1) true p h
      · rw [if_neg hh] at h
        exact ih acc m p h

theorem mergeSetMatchLocals_prov (property : SpecProp) (v1 : Value) :
    ∀ (locals acc : List Value) (m : Bool) (acc' : List Value) (m' : Bool),
      mergeSetMatchLocals property v1 locals acc m = .ok (.inr (acc', m')) →
      ∀ a ∈ acc', a ∈ acc ∨ ∃ v2 ∈ locals,
        hashComplexObject v2 = hashComplexObject v1 ∧
        convertObjectToLocalStateData property v1 v2 = .ok (a, none) := by
  intro locals
  induction locals with
  | nil =>
      intro acc m acc' m' h a ha
      simp only [mergeSetMatchLocals] at h
      obtain ⟨h1, h2⟩ := by simpa using h
      exact Or.inl (h1 ▸ ha)
  | cons v2 rest ih =>
      intro acc m acc' m' h a ha
      simp only [mergeSetMatchLocals] at h
      by_cases hh : hashComplexObject v2 = hashComplexObject v1
      · rw [if_pos hh] at h
        cases hotl : convertObjectToLocalStateData property v1 v2 with
        | error e =>
            rw [hotl] at h
            simp [bind, Except.bind] at h
        | ok ov =>
            rw [hotl] at h
            simp only [bind, Except.bind] at h
            cases hov : ov.2 with
            | some e =>
                rw [hov] at h
                simp at h
            | none =>
                rw [hov] at h
                rcases ih (setAdd acc ov.1) true acc' m' h a ha with h1 | ⟨v3, hv3, hh3, ho3⟩
                · rcases setAdd_mem h1 with h2 | h2
                  · exact Or.inl h2
                  · refine Or.inr ⟨v2, List.mem_cons_self _ _, hh, ?_⟩
                    have hov2 : ov = (ov.1, none) := Prod.ext rfl hov
                    rw [h2, hotl, hov2]
                · exact Or.inr ⟨v3, List.mem_cons_of_mem _ hv3, hh3, ho3⟩
      · rw [if_neg hh] at h
        rcases ih acc m acc' m' h a ha with h1 | ⟨v3, hv3, hh3, ho3⟩
        · exact Or.inl h1
        · exact Or.inr ⟨v3, List.mem_cons_of_mem _ hv3, hh3, ho3⟩

theorem mergeSetMatchLocals_complete (property : SpecProp) (v1 : Value) :
    ∀ (locals acc : List Value) (m : Bool) (acc' : List Value) (m' : Bool),
      mergeSetMatchLocals property v1 locals acc m = .ok (.inr (acc', m')) →
      ∀ v2 ∈ locals, hashComplexObject v2 = hashComplexObject v1 →
        ∃ mv, convertObjectToLocalStateData property v1 v2 = .ok (mv, none) ∧
          ∃ o ∈ acc', hashComplexObject o = hashComplexObject mv := by
  intro locals
  induction locals with
  | nil =>
      intro acc m acc' m' h v2 hv2 _
      simp at hv2
  | cons vh rest ih =>
      intro acc m acc' m' h v2 hv2 hhash
      simp only [mergeSetMatchLocals] at h
      by_cases hh : hashComplexObject vh = hashComplexObject v1
      · rw [if_pos hh] at h
        cases hotl : convertObjectToLocalStateData property v1 vh with
        | error e =>
            rw [hotl] at h
            simp [bind, Except.bind] at h
        | ok ov =>
            rw [hotl] at h
            simp only [bind, Except.bind] at h
            cases hov : ov.2 with
            | some e =>
                rw [hov] at h
                simp at h
            | none =>
                rw [hov] at h
                rcases List.mem_cons.mp hv2 with rfl | hv2r
                · have hov2 : ov = (ov.1, none) := Prod.ext rfl hov
                  refine ⟨ov.1, by rw [hotl, hov2], ?_⟩
                  obtain ⟨o, ho, hkey⟩ := setAdd_key acc ov.1
                  exact ⟨o, mergeSetMatchLocals_persist property v1 rest _ true acc' m' h o ho,
                    hkey⟩
                · exact ih (setAdd acc ov.1) true acc' m' h v2 hv2r hhash
      · rw [if_neg hh] at h
        rcases List.mem_cons.mp hv2 with rfl | hv2r
        · exact absurd hhash hh
        · exact ih acc m acc' m' h v2 hv2r hhash

theorem mergeSetMatchLocals_matched_false (property : SpecProp) (v1 : Value) :
    ∀ (locals acc : List Value) (m : Bool) (acc' : List Value),
      mergeSetMatchLocals property v1 locals acc m = .ok (.inr (acc', false)) →
      m = false ∧ ∀ v2 ∈ locals, hashComplexObject v2 ≠ hashComplexObject v1 := by
  intro locals
  induction locals with
  | nil =>
      intro acc m acc' h
      simp only [mergeSetMatchLocals] at h
      obtain ⟨h1, h2⟩ := by simpa using h
      exact ⟨h2, by simp⟩
  | cons vh rest ih =>
      intro acc m acc' h
      simp only [mergeSetMatchLocals] at h
      by_cases hh : hashComplexObject vh = hashComplexObject v1
      · rw [if_pos hh] at h
        cases hotl : convertObjectToLocalStateData property v1 vh with
        | error e =>
            rw [hotl] at h
            simp [bind, Except.bind] at h
        | ok ov =>
            rw [hotl] at h
            simp only [bind, Except.bind] at h
            cases hov : ov.2 with
            | some e =>
                rw [hov] at h
                simp at h
            | none =>
                rw [hov] at h
                have := (ih (setAdd acc ov.1) true acc' h).1
                simp at this
      · rw [if_neg hh] at h
        obtain ⟨h1, h2⟩ := ih acc m acc' h
        refine ⟨h1, ?_⟩
        intro v2 hv2
        rcases List.mem_cons.mp hv2 with rfl | hv2r
        · exact hh
        · exact h2 v2 hv2r

theorem mergeSetMatchLocals_matched_true (property : SpecProp) (v1 : Value) :
    ∀ (locals acc : List Value) (m : Bool) (acc' : List Value),
      mergeSetMatchLocals property v1 locals acc m = .ok (.inr (acc', true)) →
      m = true ∨ ∃ v2 ∈ locals, hashComplexObject v2 = hashComplexObject v1 := by
  intro locals
  induction locals with
  | nil =>
      intro acc m acc' h
      simp only [mergeSetMatchLocals] at h
      obtain ⟨h1, h2⟩ := by simpa using h
      exact Or.inl h2
  | cons vh rest ih =>
      intro acc m acc' h
      simp only [mergeSetMatchLocals] at h
      by_cases hh : hashComplexObject vh = hashComplexObject v1
      · exact Or.inr ⟨vh, List.mem_cons_self _ _, hh⟩
      · rw [if_neg hh] at h
        rcases ih acc m acc' h with h1 | ⟨v2, hv2, hh2⟩
        · exact Or.inl h1
        · exact Or.inr ⟨v2, List.mem_cons_of_mem _ hv2, hh2⟩

theorem mergeSetOuterLoop_persist (property : SpecProp) :
    ∀ (remotes locals acc out : List Value),
      mergeSetOuterLoop property locals remotes acc = .ok (.set out, none) →
      ∀ a ∈ acc, a ∈ out := by
  intro remotes
  induction remotes with
  | nil =>
      intro locals acc out h a ha
      simp only [mergeSetOuterLoop] at h
      have h1 : acc = out := by simpa using h
      exact h1 ▸ ha
  | cons v1 rest ih =>
      intro locals acc out h a ha
      simp only [mergeSetOuterLoop] at h
      cases hin : mergeSetMatchLocals property v1 locals acc false with
      | error e =>
          rw [hin] at h
          simp [bind, Except.bind] at h
      | ok st =>
          rw [hin] at h
          simp only [bind, Except.bind] at h
          cases st with
          | inl p =>
              obtain ⟨e, rfl⟩ := mergeSetMatchLocals_inl_shape property v1 locals acc false p hin
              simp at h
          | inr pr =>
              obtain ⟨accNew, matched⟩ := pr
              have hpersist := mergeSetMatchLocals_persist property v1 locals acc false accNew
                matched hin a ha
              cases matched with
              | true =>
                  have h2 : mergeSetOuterLoop property locals rest accNew =
                      .ok (.set out, none) := h
                  exact ih locals accNew out h2 a hpersist
              | false =>
                  cases hotl : convertObjectToLocalStateData property v1 Value.null with
                  | error e =>
                      rw [hotl] at h
                      simp [bind, Except.bind] at h
                  | ok ov =>
                      obtain ⟨ov1, ov2⟩ := ov
                      rw [hotl] at h
                      cases ov2 with
                      | some e => simp [bind, Except.bind] at h
                      | none =>
                          simp only [bind, Except.bind] at h
                          have h2 : mergeSetOuterLoop property locals rest (setAdd accNew ov1) =
                              .ok (.set out, none) := h
                          exact ih locals (setAdd accNew ov1) out h2 a
                            (setAdd_mem_subset hpersist)

theorem mergeSetOuterLoop_prov (property : SpecProp) :
    ∀ (remotes locals acc out : List Value),
      mergeSetOuterLoop property locals remotes acc = .ok (.set out, none) →
      ∀ o ∈ out, o ∈ acc ∨ ∃ r ∈ remotes,
        (∃ m2 ∈ locals, hashComplexObject m2 = hashComplexObject r ∧
          convertObjectToLocalStateData property r m2 = .ok (o, none)) ∨
        ((∀ m2 ∈ locals, hashComplexObject m2 ≠ hashComplexObject r) ∧
          convertObjectToLocalStateData property r Value.null = .ok (o, none)) := by
  intro remotes
  induction remotes with
  | nil =>
      intro locals acc out h o ho
      simp only [mergeSetOuterLoop] at h
      have h1 : acc = out := by simpa using h
      exact Or.inl (h1 ▸ ho)
  | cons v1 rest ih =>
      intro locals acc out h o ho
      simp only [mergeSetOuterLoop] at h
      cases hin : mergeSetMatchLocals property v1 locals acc false with
      | error e =>
          rw [hin] at h
          simp [bind, Except.bind] at h
      | ok st =>
          rw [hin] at h
          simp only [bind, Except.bind] at h
          cases st with
          | inl p =>
              obtain ⟨e, rfl⟩ := mergeSetMatchLocals_inl_shape property v1 locals acc false p hin
              simp at h
          | inr pr =>
              obtain ⟨accNew, matched⟩ := pr
              cases matched with
              | true =>
                  have h2 : mergeSetOuterLoop property locals rest accNew =
                      .ok (.set out, none) := h
                  rcases ih locals accNew out h2 o ho with h1 | ⟨r, hr, hcl⟩
                  · rcases mergeSetMatchLocals_prov property v1 locals acc false accNew true
                        hin o h1 with h3 | ⟨v2, hv2, hh2, ho2⟩
                    · exact Or.inl h3
                    · exact Or.inr ⟨v1, List.mem_cons_self _ _, Or.inl ⟨v2, hv2, hh2, ho2⟩⟩
                  · exact Or.inr ⟨r, List.mem_cons_of_mem _ hr, hcl⟩
              | false =>
                  obtain ⟨_, hnomatch⟩ := mergeSetMatchLocals_matched_false property v1 locals
                    acc false accNew hin
                  cases hotl : convertObjectToLocalStateData property v1 Value.null with
                  | error e =>
                      rw [hotl] at h
                      simp [bind, Except.bind] at h
                  | ok ov =>
                      obtain ⟨ov1, ov2⟩ := ov
                      rw [hotl] at h
                      cases ov2 with
                      | some e => simp [bind, Except.bind] at h
                      | none =>
                          simp only [bind, Except.bind] at h
                          have h2 : mergeSetOuterLoop property locals rest (setAdd accNew ov1) =
                              .ok (.set out, none) := h
                          rcases ih locals (setAdd accNew ov1) out h2 o ho with h1 | ⟨r, hr, hcl⟩
                          · rcases setAdd_mem h1 with h3 | h3
                            · rcases mergeSetMatchLocals_prov property v1 locals acc false accNew
                                  false hin o h3 with h4 | ⟨v2, hv2, hh2, ho2⟩
                              · exact Or.inl h4
                              · exact Or.inr ⟨v1, List.mem_cons_self _ _,
                                  Or.inl ⟨v2, hv2, hh2, ho2⟩⟩
                            · refine Or.inr ⟨v1, List.mem_cons_self _ _,
                                Or.inr ⟨hnomatch, ?_⟩⟩
                              rw [h3, hotl]
                          · exact Or.inr ⟨r, List.mem_cons_of_mem _ hr, hcl⟩

theorem mergeSetOuterLoop_complete_matched (property : SpecProp) :
    ∀ (remotes locals acc out : List Value),
      mergeSetOuterLoop property locals remotes acc = .ok (.set out, none) →
      ∀ r ∈ remotes, ∀ m2 ∈ locals, hashComplexObject m2 = hashComplexObject r →
        ∃ mv, convertObjectToLocalStateData property r m2 = .ok (mv, none) ∧
          ∃ o ∈ out, hashComplexObject o = hashComplexObject mv := by
  intro remotes
  induction remotes with
  | nil =>
      intro locals acc out h r hr
      simp at hr
  | cons v1 rest ih =>
      intro locals acc out h r hr m2 hm2 hhash
      simp only [mergeSetOuterLoop] at h
      cases hin : mergeSetMatchLocals property v1 locals acc false with
      | error e =>
          rw [hin] at h
          simp [bind, Except.bind] at h
      | ok st =>
          rw [hin] at h
          simp only [bind, Except.bind] at h
          cases st with
          | inl p =>
              obtain ⟨e, rfl⟩ := mergeSetMatchLocals_inl_shape property v1 locals acc false p hin
              simp at h
          | inr pr =>
              obtain ⟨accNew, matched⟩ := pr
              cases matched with
              | true =>
                  have h2 : mergeSetOuterLoop property locals rest accNew =
                      .ok (.set out, none) := h
                  rcases List.mem_cons.mp hr with rfl | hrr
                  · obtain ⟨mv, hmv, o, ho, hkey⟩ := mergeSetMatchLocals_complete property r
                      locals acc false accNew true hin m2 hm2 hhash
                    exact ⟨mv, hmv, o, mergeSetOuterLoop_persist property rest locals accNew
                      out h2 o ho, hkey⟩
                  · exact ih locals accNew out h2 r hrr m2 hm2 hhash
              | false =>
                  obtain ⟨_, hnomatch⟩ := mergeSetMatchLocals_matched_false property v1 locals
                    acc false accNew hin
                  cases hotl : convertObjectToLocalStateData property v1 Value.null with
                  | error e =>
                      rw [hotl] at h
                      simp [bind, Except.bind] at h
                  | ok ov =>
                      obtain ⟨ov1, ov2⟩ := ov
                      rw [hotl] at h
                      cases ov2 with
                      | some e => simp [bind, Except.bind] at h
                      | none =>
                          simp only [bind, Except.bind] at h
                          have h2 : mergeSetOuterLoop property locals rest (setAdd accNew ov1) =
                              .ok (.set out, none) := h
                          rcases List.mem_cons.mp hr with rfl | hrr
                          · exact absurd hhash (hnomatch m2 hm2)
                          · exact ih locals (setAdd accNew ov1) out h2 r hrr m2 hm2 hhash

theorem mergeSetOuterLoop_complete_unmatched (property : SpecProp) :
    ∀ (remotes locals acc out : List Value),
      mergeSetOuterLoop property locals remotes acc = .ok (.set out, none) →
      ∀ r ∈ remotes, (∀ m2 ∈ locals, hashComplexObject m2 ≠ hashComplexObject r) →
        ∃ mv, convertObjectToLocalStateData property r Value.null = .ok (mv, none) ∧
          ∃ o ∈ out, hashComplexObject o = hashComplexObject mv := by
  intro remotes
  induction remotes with
  | nil =>
      intro locals acc out h r hr
      simp at hr
  | cons v1 rest ih =>
      intro locals acc out h r hr hnone
      simp only [mergeSetOuterLoop] at h
      cases hin : mergeSetMatchLocals property v1 locals acc false with
      | error e =>
          rw [hin] at h
          simp [bind, Except.bind] at h
      | ok st =>
          rw [hin] at h
          simp only [bind, Except.bind] at h
          cases st with
          | inl p =>
              obtain ⟨e, rfl⟩ := mergeSetMatchLocals_inl_shape property v1 locals acc false p hin
              simp at h
          | inr pr =>
              obtain ⟨accNew, matched⟩ := pr
              cases matched with
              | true =>
                  have h2 : mergeSetOuterLoop property locals rest accNew =
                      .ok (.set out, none) := h
                  rcases List.mem_cons.mp hr with rfl | hrr
                  · rcases mergeSetMatchLocals_matched_true property r locals acc false accNew
                        hin with h3 | ⟨v2, hv2, hh2⟩
                    · simp at h3
                    · exact absurd hh2 (hnone v2 hv2)
                  · exact ih locals accNew out h2 r hrr hnone
              | false =>
                  cases hotl : convertObjectToLocalStateData property v1 Value.null with
                  | error e =>
                      rw [hotl] at h
                      simp [bind, Except.bind] at h
                  | ok ov =>
                      obtain ⟨ov1, ov2⟩ := ov
                      rw [hotl] at h
                      cases ov2 with
                      | some e => simp [bind, Except.bind] at h
                      | none =>
                          simp only [bind, Except.bind] at h
                          have h2 : mergeSetOuterLoop property locals rest (setAdd accNew ov1) =
                              .ok (.set out, none) := h
                          rcases List.mem_cons.mp hr with rfl | hrr
                          · refine ⟨ov1, hotl, ?_⟩
                            obtain ⟨o, ho, hkey⟩ := setAdd_key accNew ov1
                            exact ⟨o, mergeSetOuterLoop_persist property rest locals _ out h2
                              o ho, hkey⟩
                          · exact ih locals (setAdd accNew ov1) out h2 r hrr hnone

/-- The set-of-objects property of the C1 counterexample: two declared string
children named a and b. -/
def c1Property : SpecProp :=
  SpecProp.mk "s" PropType.set PropType.object false false false
    [SpecProp.mk "a" PropType.string PropType.string false false false [],
     SpecProp.mk "b" PropType.string PropType.string false false false []]

/-- The single remote element of the C1 counterexample: the field b is absent. -/
def c1RemoteElement : Value := Value.obj [("a", Value.str "v")]

/-- The single local element of the C1 counterexample: the persisted shape of
the same entity, with b stored as null by an earlier merge. -/
def c1LocalElement : Value := Value.obj [("a", Value.str "v"), ("b", Value.null)]

set_option maxHeartbeats 1000000 in
/-- C1 (counterexample): the local element differs from the only remote
element and has no hash-equal remote counterpart, so by the claim it must be
absent from the merged output; yet the merged output is exactly that local
element, because the null-prior merge of the remote element fills the absent
field b with null and so reproduces the local element. -/
theorem set_reconciliation_keeps_local_only_element :
    convertPayloadToLocalStateDataValue c1Property (Value.arr [c1RemoteElement])
      (Value.set [c1LocalElement]) true = .ok (Value.set [c1LocalElement], none) ∧
    c1LocalElement ≠ c1RemoteElement ∧
    hashComplexObject c1LocalElement ≠ hashComplexObject c1RemoteElement := by
  refine ⟨?_, by decide, by decide⟩
  have hne : hashComplexObject (Value.obj [("a", Value.str "v"), ("b", Value.null)]) ≠
      hashComplexObject (Value.obj [("a", Value.str "v")]) := by decide
  simp [c1Property, c1RemoteElement, c1LocalElement,
    convertPayloadToLocalStateDataValue, convertSetPayload, asArrayOrEmpty,
    deepConvertArrayToSet, deepConvertSetElemsLoop, deepConvertArrayToSetMapNew,
    deepConvertMapFieldsLoop, deepConvertFieldPropsLoop, mergeSetOuterLoop,
    mergeSetMatchLocals, convertObjectToLocalStateData, convertChildrenLoop,
    convertStringPayload, setAdd, assocSet, lookupValue, List.find?, List.any,
    isTerraformSetOfSimpleValues, isSetOfObjectsProperty, isSetProperty,
    SpecProp.children, SpecProp.name, SpecProp.type_, SpecProp.writeOnly,
    SpecProp.arrayItemsType, getTerraformCompliantPropertyName,
    shouldUseLegacyTerraformSDKBlockApproachForComplexObjects, SpecProp.enableLegacyBlock,
    bind, Except.bind, pure, Except.pure, hne, beq_iff_eq]

/-- The set-of-objects property of the C4 counterexample: one write-only
string child named Aa. -/
def c4Property : SpecProp :=
  SpecProp.mk "s" PropType.set PropType.object false false false
    [SpecProp.mk "Aa" PropType.string PropType.string true false false []]

/-- The single remote element of the C4 counterexample. -/
def c4RemoteElement : Value := Value.obj [("Aa", Value.str "z")]

/-- The first local element: identical to the remote element. -/
def c4LocalElementOne : Value := Value.obj [("Aa", Value.str "z")]

/-- The second local element: its key BB collides with the key Aa under the
string hash, so the whole element is hash-equal to the remote element while
being structurally different. -/
def c4LocalElementTwo : Value := Value.obj [("BB", Value.str "z")]

/-- The merge of the remote element against the first local element: the
write-only child keeps the local value of Aa. -/
def c4MergedOne : Value := Value.obj [("Aa", Value.str "z")]

/-- The merge of the remote element against the second local element: the
write-only child reads Aa from a local element that has no such field, so the
merged field is null. -/
def c4MergedTwo : Value := Value.obj [("Aa", Value.null)]

set_option maxHeartbeats 1000000 in
/-- C4 (counterexample): a single remote element with two distinct hash-equal
local elements is merged against both of them (the inner scan has no break),
and contributes two distinct elements to the merged output, not one. -/
theorem set_reconciliation_merges_every_match_counterexample :
    convertPayloadToLocalStateDataValue c4Property (Value.arr [c4RemoteElement])
      (Value.set [c4LocalElementOne, c4LocalElementTwo]) true =
      .ok (Value.set [c4MergedOne, c4MergedTwo], none) ∧
    hashComplexObject c4LocalElementOne = hashComplexObject c4RemoteElement ∧
    hashComplexObject c4LocalElementTwo = hashComplexObject c4RemoteElement ∧
    c4LocalElementOne ≠ c4LocalElementTwo ∧ c4MergedOne ≠ c4MergedTwo := by
  refine ⟨?_, by decide, by decide, by decide, by decide⟩
  have hcollide : hashComplexObject (Value.obj [("BB", Value.str "z")]) =
      hashComplexObject (Value.obj [("Aa", Value.str "z")]) := by decide
  have hmergedne : hashComplexObject (Value.obj [("Aa", Value.str "z")]) ≠
      hashComplexObject (Value.obj [("Aa", Value.null)]) := by decide
  simp [c4Property, c4RemoteElement, c4LocalElementOne, c4LocalElementTwo,
    c4MergedOne, c4MergedTwo,
    convertPayloadToLocalStateDataValue, convertSetPayload, asArrayOrEmpty,
    deepConvertArrayToSet, deepConvertSetElemsLoop, deepConvertArrayToSetMapNew,
    deepConvertMapFieldsLoop, deepConvertFieldPropsLoop, mergeSetOuterLoop,
    mergeSetMatchLocals, convertObjectToLocalStateData, convertChildrenLoop,
    convertStringPayload, setAdd, assocSet, lookupValue, List.find?, List.any,
    isTerraformSetOfSimpleValues, isSetOfObjectsProperty, isSetProperty,
    SpecProp.children, SpecProp.name, SpecProp.type_, SpecProp.writeOnly,
    SpecProp.arrayItemsType, getTerraformCompliantPropertyName,
    shouldUseLegacyTerraformSDKBlockApproachForComplexObjects, SpecProp.enableLegacyBlock,
    bind, Except.bind, pure, Except.pure, hcollide, hmergedne, beq_iff_eq]

/-- C1 (amended): in the hash-based set reconciliation, every element of the
merged output is the merge of some remote element, against a hash-equal
local element or against a null prior state when no local element is
hash-equal; and every remote element with no hash-equal local counterpart
succeeds in its null-prior merge and is represented in the output by an
element with the hash code of that merge result. Elements are never taken
from the local collection directly, but an element present only locally can
still reappear in the output by coinciding with such a merge result. -/
theorem mergeObjectSet_provenance_and_completeness (property : SpecProp)
    (remotes locals out : List Value)
    (h : mergeSetOuterLoop property locals remotes [] = .ok (.set out, none)) :
    (∀ o ∈ out, ∃ r ∈ remotes,
      (∃ m2 ∈ locals, hashComplexObject m2 = hashComplexObject r ∧
        convertObjectToLocalStateData property r m2 = .ok (o, none)) ∨
      ((∀ m2 ∈ locals, hashComplexObject m2 ≠ hashComplexObject r) ∧
        convertObjectToLocalStateData property r Value.null = .ok (o, none))) ∧
    (∀ r ∈ remotes, (∀ m2 ∈ locals, hashComplexObject m2 ≠ hashComplexObject r) →
      ∃ mv, convertObjectToLocalStateData property r Value.null = .ok (mv, none) ∧
        ∃ o ∈ out, hashComplexObject o = hashComplexObject mv) := by
  constructor
  · intro o ho
    rcases mergeSetOuterLoop_prov property remotes locals [] out h o ho with h1 | h2
    · simp at h1
    · exact h2
  · intro r hr hnone
    exact mergeSetOuterLoop_complete_unmatched property remotes locals [] out h r hr hnone

set_option maxHeartbeats 1000000 in
theorem mergeObjectSet_provenance_and_completeness_witness :
    ∃ r ∈ [c1RemoteElement],
      (∃ m2 ∈ ([] : List Value), hashComplexObject m2 = hashComplexObject r ∧
        convertObjectToLocalStateData c1Property r m2 = .ok (c1LocalElement, none)) ∨
      ((∀ m2 ∈ ([] : List Value), hashComplexObject m2 ≠ hashComplexObject r) ∧
        convertObjectToLocalStateData c1Property r Value.null = .ok (c1LocalElement, none)) := by
  have h : mergeSetOuterLoop c1Property [] [c1RemoteElement] [] =
      .ok (Value.set [c1LocalElement], none) := by
    simp [c1Property, c1RemoteElement, c1LocalElement, mergeSetOuterLoop, mergeSetMatchLocals,
      convertObjectToLocalStateData, convertChildrenLoop, convertPayloadToLocalStateDataValue,
      convertStringPayload, setAdd, lookupValue, List.find?, List.any,
      SpecProp.children, SpecProp.name, SpecProp.type_, SpecProp.writeOnly,
      getTerraformCompliantPropertyName,
      shouldUseLegacyTerraformSDKBlockApproachForComplexObjects, SpecProp.enableLegacyBlock,
      bind, Except.bind, pure, Except.pure]
  exact (mergeObjectSet_provenance_and_completeness c1Property [c1RemoteElement] []
    [c1LocalElement] h).1 c1LocalElement (List.mem_singleton.mpr rfl)

/-- C4 (amended): each remote element is merged against every local element
whose hash equals its own, in local scan order with no break, and every such
merge succeeds and is represented in the output by an element carrying the
hash code of its merge result; when several local elements share the hash,
the remote element can thus contribute several output elements. -/
theorem mergeObjectSet_merges_every_hash_match (property : SpecProp)
    (remotes locals out : List Value) (r m2 : Value)
    (h : mergeSetOuterLoop property locals remotes [] = .ok (.set out, none))
    (hr : r ∈ remotes) (hm : m2 ∈ locals)
    (hhash : hashComplexObject m2 = hashComplexObject r) :
    ∃ mv, convertObjectToLocalStateData property r m2 = .ok (mv, none) ∧
      ∃ o ∈ out, hashComplexObject o = hashComplexObject mv :=
  mergeSetOuterLoop_complete_matched property remotes locals [] out h r hr m2 hm hhash

set_option maxHeartbeats 1000000 in
theorem mergeObjectSet_merges_every_hash_match_witness :
    ∃ mv, convertObjectToLocalStateData c4Property c4RemoteElement c4LocalElementOne =
        .ok (mv, none) ∧
      ∃ o ∈ [c4MergedOne], hashComplexObject o = hashComplexObject mv := by
  have h : mergeSetOuterLoop c4Property [c4LocalElementOne] [c4RemoteElement] [] =
      .ok (Value.set [c4MergedOne], none) := by
    simp [c4Property, c4RemoteElement, c4LocalElementOne, c4MergedOne,
      mergeSetOuterLoop, mergeSetMatchLocals, convertObjectToLocalStateData,
      convertChildrenLoop, convertPayloadToLocalStateDataValue, convertStringPayload,
      setAdd, lookupValue, List.find?, List.any,
      SpecProp.children, SpecProp.name, SpecProp.type_, SpecProp.writeOnly,
      getTerraformCompliantPropertyName,
      shouldUseLegacyTerraformSDKBlockApproachForComplexObjects, SpecProp.enableLegacyBlock,
      bind, Except.bind, pure, Except.pure]
  exact mergeObjectSet_merges_every_hash_match c4Property [c4RemoteElement]
    [c4LocalElementOne] [c4MergedOne] c4RemoteElement c4LocalElementOne h
    (List.mem_singleton.mpr rfl) (List.mem_singleton.mpr rfl) rfl
